import Mathlib

/-!
Verification of the `algonaut_core` address / multisig / serialization layer.

The definitions below are a shallow embedding of `src/algonaut_core/src/lib.rs`:
bytes are `Nat` values below 256, `[u8; N]` arrays become `List Nat` together
with length hypotheses, `Result<T, String>` becomes `Except String T`.
The base-32 codec models the `data_encoding` crate's `BASE32_NOPAD`
(RFC 4648 alphabet, no padding, strict: rejects non-canonical lengths and
nonzero trailing bits).  The checksum algorithm `sha2::Sha512Trunc256`
(SHA-512/256, FIPS 180-4) is embedded in full over `Nat` arithmetic mod 2^64.
-/

namespace Algonaut

/-- The eight bits of a byte, most significant first. -/
def byteToBits (b : Nat) : List Bool :=
  [b / 128 % 2 == 1, b / 64 % 2 == 1, b / 32 % 2 == 1, b / 16 % 2 == 1,
   b / 8 % 2 == 1, b / 4 % 2 == 1, b / 2 % 2 == 1, b % 2 == 1]

/-- The five bits of a 5-bit group value, most significant first. -/
def valToBits (v : Nat) : List Bool :=
  [v / 16 % 2 == 1, v / 8 % 2 == 1, v / 4 % 2 == 1, v / 2 % 2 == 1, v % 2 == 1]

/-- Value of a bit list, most significant bit first. -/
def bitsVal (bs : List Bool) : Nat :=
  bs.foldl (fun acc b => 2 * acc + (if b then 1 else 0)) 0

/-- Bytes to their big-endian bit stream. -/
def bytesToBits : List Nat → List Bool
  | [] => []
  | b :: rest => byteToBits b ++ bytesToBits rest

/-- Regroup a bit stream into bytes; a final group shorter than 8 bits is dropped. -/
def bitsToBytes : List Bool → List Nat
  | b7 :: b6 :: b5 :: b4 :: b3 :: b2 :: b1 :: b0 :: rest =>
      bitsVal [b7, b6, b5, b4, b3, b2, b1, b0] :: bitsToBytes rest
  | _ => []

/-- Regroup a bit stream into 5-bit group values; a final group shorter than 5 bits is dropped. -/
def bitsToVals : List Bool → List Nat
  | b4 :: b3 :: b2 :: b1 :: b0 :: rest =>
      bitsVal [b4, b3, b2, b1, b0] :: bitsToVals rest
  | _ => []

/-- 5-bit group values to their bit stream. -/
def valsToBits : List Nat → List Bool
  | [] => []
  | v :: rest => valToBits v ++ valsToBits rest

/-- The RFC 4648 base-32 alphabet used by `data_encoding::BASE32_NOPAD`. -/
def base32Alphabet : List Char := "ABCDEFGHIJKLMNOPQRSTUVWXYZ234567".data

/-- Encoding character of a 5-bit group value. -/
def valToChar (v : Nat) : Char := base32Alphabet.getD v 'A'

/-- Index of a character in a character list, starting at `i`. -/
def charIndexFrom (c : Char) : List Char → Nat → Option Nat
  | [], _ => none
  | x :: xs, i => if x = c then some i else charIndexFrom c xs (i + 1)

/-- 5-bit group value of a base-32 character (strict: upper case only). -/
def charToVal (c : Char) : Option Nat := charIndexFrom c base32Alphabet 0

/-- Decode every character of the input, failing on any non-alphabet character. -/
def charsToVals : List Char → Option (List Nat)
  | [] => some []
  | c :: rest =>
    match charToVal c, charsToVals rest with
    | some v, some vs => some (v :: vs)
    | _, _ => none

/-- Errors of the `data_encoding` base-32 decoder, as the repository observes them. -/
inductive Base32Error where
  | invalidChar
  | invalidLength
  | invalidTrailingBits
deriving DecidableEq, Repr

/-- Rendering of a base-32 decode error (stands in for the crate's `Debug` output). -/
def base32ErrorString : Base32Error → String
  | .invalidChar => "invalid symbol"
  | .invalidLength => "invalid length"
  | .invalidTrailingBits => "trailing bits"

instance {ε α : Type} [DecidableEq ε] [DecidableEq α] : DecidableEq (Except ε α)
  | .error e, .error f => decidable_of_iff (e = f) (by simp)
  | .error _, .ok _ => isFalse (by simp)
  | .ok _, .error _ => isFalse (by simp)
  | .ok a, .ok b => decidable_of_iff (a = b) (by simp)

/-- `data_encoding::BASE32_NOPAD.encode`: bytes to RFC 4648 base-32 text without padding.
The bit stream is padded with zero bits to a multiple of five. -/
def base32Encode (bytes : List Nat) : List Char :=
  let bits := bytesToBits bytes
  let padded := bits ++ List.replicate ((5 - bits.length % 5) % 5) false
  (bitsToVals padded).map valToChar

/-- `data_encoding::BASE32_NOPAD.decode`: strict RFC 4648 base-32 decoding without
padding.  Fails on a non-alphabet character, on an encoded length that no byte
string produces (length mod 8 in {1, 3, 6}), and on nonzero trailing bits. -/
def base32Decode (s : List Char) : Except Base32Error (List Nat) :=
  match charsToVals s with
  | none => .error .invalidChar
  | some vs =>
    let n := vs.length
    if n % 8 = 1 ∨ n % 8 = 3 ∨ n % 8 = 6 then .error .invalidLength
    else
      let bits := valsToBits vs
      let m := 5 * n / 8
      if (bits.drop (8 * m)).all (fun b => b == false) then
        .ok (bitsToBytes (bits.take (8 * m)))
      else .error .invalidTrailingBits

/-! ### SHA-512/256 (FIPS 180-4), the `sha2::Sha512Trunc256` checksum algorithm -/

/-- 2^64, the word modulus of SHA-512. -/
def M64 : Nat := 18446744073709551616

/-- Right rotation of a 64-bit word. -/
def rotr (n x : Nat) : Nat := (x >>> n) ||| ((x <<< (64 - n)) % M64)

/-- Bitwise complement of a 64-bit word. -/
def bnot64 (x : Nat) : Nat := x ^^^ (M64 - 1)

/-- SHA-512 big sigma 0. -/
def bigSigma0 (x : Nat) : Nat := rotr 28 x ^^^ rotr 34 x ^^^ rotr 39 x

/-- SHA-512 big sigma 1. -/
def bigSigma1 (x : Nat) : Nat := rotr 14 x ^^^ rotr 18 x ^^^ rotr 41 x

/-- SHA-512 small sigma 0. -/
def smallSigma0 (x : Nat) : Nat := rotr 1 x ^^^ rotr 8 x ^^^ (x >>> 7)

/-- SHA-512 small sigma 1. -/
def smallSigma1 (x : Nat) : Nat := rotr 19 x ^^^ rotr 61 x ^^^ (x >>> 6)

/-- SHA-512 choice function. -/
def shaCh (e f g : Nat) : Nat := (e &&& f) ^^^ (bnot64 e &&& g)

/-- SHA-512 majority function. -/
def shaMaj (a b c : Nat) : Nat := (a &&& b) ^^^ (a &&& c) ^^^ (b &&& c)

/-- The eighty SHA-512 round constants, in decimal (FIPS 180-4 gives them in hex;
the first is 0x428a2f98d728ae22). -/
def sha512K : List Nat :=
  [4794697086780616226, 8158064640168781261, 13096744586834688815, 16840607885511220156,
   4131703408338449720, 6480981068601479193, 10538285296894168987, 12329834152419229976,
   15566598209576043074, 1334009975649890238, 2608012711638119052, 6128411473006802146,
   8268148722764581231, 9286055187155687089, 11230858885718282805, 13951009754708518548,
   16472876342353939154, 17275323862435702243, 1135362057144423861, 2597628984639134821,
   3308224258029322869, 5365058923640841347, 6679025012923562964, 8573033837759648693,
   10970295158949994411, 12119686244451234320, 12683024718118986047, 13788192230050041572,
   14330467153632333762, 15395433587784984357, 489312712824947311, 1452737877330783856,
   2861767655752347644, 3322285676063803686, 5560940570517711597, 5996557281743188959,
   7280758554555802590, 8532644243296465576, 9350256976987008742, 10552545826968843579,
   11727347734174303076, 12113106623233404929, 14000437183269869457, 14369950271660146224,
   15101387698204529176, 15463397548674623760, 17586052441742319658, 1182934255886127544,
   1847814050463011016, 2177327727835720531, 2830643537854262169, 3796741975233480872,
   4115178125766777443, 5681478168544905931, 6601373596472566643, 7507060721942968483,
   8399075790359081724, 8693463985226723168, 9568029438360202098, 10144078919501101548,
   10430055236837252648, 11840083180663258601, 13761210420658862357, 14299343276471374635,
   14566680578165727644, 15097957966210449927, 16922976911328602910, 17689382322260857208,
   500013540394364858, 748580250866718886, 1242879168328830382, 1977374033974150939,
   2944078676154940804, 3659926193048069267, 4368137639120453308, 4836135668995329356,
   5532061633213252278, 6448918945643986474, 6902733635092675308, 7801388544844847127]

/-- The SHA-512/256 initial hash value, in decimal (FIPS 180-4 gives it in hex;
the first word is 0x22312194FC2BF72C). -/
def sha512_256IV : List Nat :=
  [2463787394917988140, 11481187982095705282,
   2563595384472711505, 10824532655140301501,
   10819967247969091555, 13717434660681038226,
   3098927326965381290, 1060366662362279074]

/-- Big-endian bytes of a number, fixed width `k`. -/
def natToBytesBE : Nat → Nat → List Nat
  | 0, _ => []
  | k + 1, n => natToBytesBE k (n / 256) ++ [n % 256]

/-- SHA-512 padding: append 0x80, zero bytes up to 112 mod 128, and the
128-bit big-endian bit length. -/
def sha512Pad (msg : List Nat) : List Nat :=
  msg ++ 0x80 :: List.replicate ((239 - msg.length % 128) % 128) 0
      ++ natToBytesBE 16 (8 * msg.length)

/-- Bytes to big-endian 64-bit words; a final group shorter than 8 bytes is dropped. -/
def bytesToWords : List Nat → List Nat
  | b0 :: b1 :: b2 :: b3 :: b4 :: b5 :: b6 :: b7 :: rest =>
      (((((((b0 * 256 + b1) * 256 + b2) * 256 + b3) * 256 + b4) * 256 + b5) * 256 + b6)
        * 256 + b7) :: bytesToWords rest
  | _ => []

/-- 64-bit words to big-endian bytes. -/
def wordsToBytes : List Nat → List Nat
  | [] => []
  | w :: rest => natToBytesBE 8 w ++ wordsToBytes rest

/-- Split a word list into 16-word message blocks; a final group shorter than
16 words is dropped. -/
def toBlocks : List Nat → List (List Nat)
  | w0 :: w1 :: w2 :: w3 :: w4 :: w5 :: w6 :: w7 :: w8 :: w9 :: w10 :: w11 ::
      w12 :: w13 :: w14 :: w15 :: rest =>
      [w0, w1, w2, w3, w4, w5, w6, w7, w8, w9, w10, w11, w12, w13, w14, w15]
        :: toBlocks rest
  | _ => []

/-- Next message-schedule word, from the reversed schedule built so far. -/
def scheduleStep (w : List Nat) : Nat :=
  (smallSigma1 (w.getD 1 0) + w.getD 6 0 + smallSigma0 (w.getD 14 0) + w.getD 15 0) % M64

/-- Extend the reversed message schedule by `n` words, then restore the order. -/
def extendSchedule : Nat → List Nat → List Nat
  | 0, w => w.reverse
  | n + 1, w => extendSchedule n (scheduleStep w :: w)

/-- The eighty-word SHA-512 message schedule of one 16-word block. -/
def sha512Schedule (block : List Nat) : List Nat := extendSchedule 64 block.reverse

/-- The eight working variables of the SHA-512 compression loop. -/
structure Sha512State where
  a : Nat
  b : Nat
  c : Nat
  d : Nat
  e : Nat
  f : Nat
  g : Nat
  h : Nat

/-- One SHA-512 round. -/
def sha512Round (s : Sha512State) (k w : Nat) : Sha512State :=
  let t1 := (s.h + bigSigma1 s.e + shaCh s.e s.f s.g + k + w) % M64
  let t2 := (bigSigma0 s.a + shaMaj s.a s.b s.c) % M64
  ⟨(t1 + t2) % M64, s.a, s.b, s.c, (s.d + t1) % M64, s.e, s.f, s.g⟩

/-- Fold the round function over paired constant and schedule lists. -/
def foldRounds : Sha512State → List Nat → List Nat → Sha512State
  | s, k :: ks, w :: ws => foldRounds (sha512Round s k w) ks ws
  | s, _, _ => s

/-- SHA-512 compression of one block onto the running eight-word hash state. -/
def sha512Compress (hs : List Nat) (block : List Nat) : List Nat :=
  let ws := sha512Schedule block
  let s0 : Sha512State := ⟨hs.getD 0 0, hs.getD 1 0, hs.getD 2 0, hs.getD 3 0,
                           hs.getD 4 0, hs.getD 5 0, hs.getD 6 0, hs.getD 7 0⟩
  let sf := foldRounds s0 sha512K ws
  [(s0.a + sf.a) % M64, (s0.b + sf.b) % M64, (s0.c + sf.c) % M64, (s0.d + sf.d) % M64,
   (s0.e + sf.e) % M64, (s0.f + sf.f) % M64, (s0.g + sf.g) % M64, (s0.h + sf.h) % M64]

/-- SHA-512/256 digest of a byte string: the first four words (32 bytes) of the
SHA-512 state computed from the SHA-512/256 initial value. -/
def sha512_256Digest (msg : List Nat) : List Nat :=
  wordsToBytes ((toBlocks (bytesToWords (sha512Pad msg))).foldl sha512Compress sha512_256IV |>.take 4)

/-! ### The address codec (`Address` in `src/algonaut_core/src/lib.rs`) -/

/-- `CHECKSUM_LEN` of the source. -/
def CHECKSUM_LEN : Nat := 4

/-- `HASH_LEN` of the source. -/
def HASH_LEN : Nat := 32

/-- Public key address: `pub struct Address(pub [u8; HASH_LEN])`.  The 32-byte
array is carried as a byte list; theorems add the length and range bounds the
Rust array type guarantees. -/
structure Address where
  bytes : List Nat
deriving DecidableEq, Repr

/-- `Address::new`. -/
def Address.new (bytes : List Nat) : Address := ⟨bytes⟩

/-- `Address::from_string`: base-32 decode without padding, demand 36 decoded
bytes, split into hash and checksum, recompute the checksum as the last four
bytes of the SHA-512/256 digest of the hash, compare. -/
def Address.from_string (string : String) : Except String Address :=
  match base32Decode string.data with
  | .error err => .error ("Error decoding base32: " ++ base32ErrorString err)
  | .ok checksum_address =>
    if checksum_address.length ≠ HASH_LEN + CHECKSUM_LEN then
      .error "Input string is an invalid address. Wrong length"
    else
      let address := checksum_address.take HASH_LEN
      let checksum := checksum_address.drop HASH_LEN
      let hashed := sha512_256Digest address
      if hashed.drop (HASH_LEN - CHECKSUM_LEN) = checksum then
        .ok (Address.new address)
      else
        .error "Input checksum did not validate"

/-- `Address::encode_string`: append the last four digest bytes as checksum and
base-32 encode without padding. -/
def Address.encode_string (a : Address) : String :=
  let hashed := sha512_256Digest a.bytes
  let checksum := hashed.drop (HASH_LEN - CHECKSUM_LEN)
  String.mk (base32Encode (a.bytes ++ checksum))

/-- The known-good address literal of the repository's `decode` test. -/
def goodAddressString : String :=
  "737777777777777777777777777777777777777777777777777UFEJ2CI"

/-- The same literal with its last character changed, the repository's
`decode_invalid_checksum` test input. -/
def badChecksumString : String :=
  "737777777777777777777777777777777777777777777777777UFEJ2CJ"

/-- The good address string with its first character changed to `A`: still
canonical base-32 decoding to 36 bytes, but the checksum no longer matches. -/
def mismatchChecksumString : String := String.mk ('A' :: goodAddressString.data.tail)

/-! ### Multisig identity (`MultisigAddress` in the source) -/

/-- `Ed25519PublicKey(pub [u8; 32])` of the `algonaut_crypto` crate: an opaque
32-byte public-key newtype, referenced by the source under `src/`. -/
structure Ed25519PublicKey where
  bytes : List Nat
deriving DecidableEq, Repr

/-- `pub struct MultisigAddress { version: u8, threshold: u8, public_keys: Vec<Ed25519PublicKey> }`. -/
structure MultisigAddress where
  version : Nat
  threshold : Nat
  public_keys : List Ed25519PublicKey
deriving DecidableEq, Repr

/-- `MultisigAddress::new`: reject a version other than 1, then reject a zero
threshold, an empty address list, or a threshold above the address count; the
count is compared after the Rust `as u8` cast, hence modulo 256. -/
def MultisigAddress.new (version threshold : Nat) (addresses : List Address) :
    Except String MultisigAddress :=
  if version ≠ 1 then
    .error "Unknown msig version"
  else if threshold = 0 ∨ addresses.isEmpty ∨ threshold > addresses.length % 256 then
    .error "Invalid threshold"
  else
    .ok ⟨version, threshold, addresses.map (fun address => ⟨address.bytes⟩)⟩

/-- The byte literal `b"MultisigAddr"`. -/
def msigPrefixBytes : List Nat := "MultisigAddr".data.map Char.toNat

/-- Concatenation of the key byte arrays, in list order. -/
def keysFlat : List Ed25519PublicKey → List Nat
  | [] => []
  | k :: rest => k.bytes ++ keysFlat rest

/-- The buffer hashed by `MultisigAddress::address`:
`b"MultisigAddr" ++ [version] ++ [threshold] ++ keys`. -/
def MultisigAddress.buf (m : MultisigAddress) : List Nat :=
  msigPrefixBytes ++ m.version :: m.threshold :: keysFlat m.public_keys

/-- `MultisigAddress::address`: the full 32-byte SHA-512/256 digest of the
buffer, as an `Address`. -/
def MultisigAddress.address (m : MultisigAddress) : Address :=
  Address.new (sha512_256Digest m.buf)

/-! ### Signature containers -/

/-- `pub struct Signature(pub [u8; 64])`; equality is raw byte comparison. -/
structure Signature where
  bytes : List Nat
deriving DecidableEq, Repr

/-- `pub struct VotePk(pub [u8; 32])`. -/
structure VotePk where
  bytes : List Nat
deriving DecidableEq, Repr

/-- `pub struct VrfPk(pub [u8; 32])`. -/
structure VrfPk where
  bytes : List Nat
deriving DecidableEq, Repr

/-- `MultisigSubsig { key, sig: Option<Signature> }`. -/
structure MultisigSubsig where
  key : Ed25519PublicKey
  sig : Option Signature
deriving DecidableEq, Repr

/-- `MultisigSignature { subsigs, threshold, version }`. -/
structure MultisigSignature where
  subsigs : List MultisigSubsig
  threshold : Nat
  version : Nat
deriving DecidableEq, Repr

/-! ### Canonical serialization

The wire format is a self-describing map/byte-string format (msgpack).  A
`SerValue` is the shape of one serialized value: the claims are about which
constructor each type serializes to, the entry order of maps, and entry
presence.  Each `ser...` function below is the shallow embedding of the
corresponding manual `Serialize` impl of the source. -/

inductive SerValue where
  | nul
  | int (n : Nat)
  | bytes (bs : List Nat)
  | str (s : String)
  | map (entries : List (String × SerValue))
  | arr (items : List SerValue)

/-- `Serialize for Signature`: `serializer.serialize_bytes(&self.0[..])`. -/
def serSignature (s : Signature) : SerValue := .bytes s.bytes

/-- `Serialize for Address`: `serializer.serialize_bytes(&self.0[..])`. -/
def serAddress (a : Address) : SerValue := .bytes a.bytes

/-- `Serialize for VotePk`: `serializer.serialize_bytes(&self.0[..])`. -/
def serVotePk (k : VotePk) : SerValue := .bytes k.bytes

/-- `Serialize for VrfPk`: `serializer.serialize_bytes(&self.0[..])`. -/
def serVrfPk (k : VrfPk) : SerValue := .bytes k.bytes

/-- Serialization of `Ed25519PublicKey` (in `algonaut_crypto`): a raw 32-byte
string, per the spec's rule for byte-container newtypes. -/
def serEd25519PublicKey (k : Ed25519PublicKey) : SerValue := .bytes k.bytes

/-- `Serialize for MultisigSubsig`: a map of one or two entries, `"pk"` always
first, `"s"` only when the signature is present. -/
def serMultisigSubsig (s : MultisigSubsig) : SerValue :=
  .map (("pk", serEd25519PublicKey s.key) ::
    (match s.sig with
     | some sig => [("s", serSignature sig)]
     | none => []))

/-- Serialization of a subsignature list (serde serializes a `Vec` as a sequence). -/
def serSubsigList : List MultisigSubsig → List SerValue
  | [] => []
  | s :: rest => serMultisigSubsig s :: serSubsigList rest

/-- `Serialize for MultisigSignature`: an explicit three-entry map
`subsig`, `thr`, `v`, in that fixed order. -/
def serMultisigSignature (m : MultisigSignature) : SerValue :=
  .map [("subsig", .arr (serSubsigList m.subsigs)),
        ("thr", .int m.threshold),
        ("v", .int m.version)]

/-- Modelled from the spec: the `U8_32Visitor` of the `algonaut_encoding` crate
(source not under `src/`), used by `Deserialize` for `Address`, `VotePk` and
`VrfPk` — accept exactly a 32-byte byte string, "deserialize strictly rejecting
wrong lengths". -/
def deserBytes32 : SerValue → Except String (List Nat)
  | .bytes bs => if bs.length = 32 then .ok bs else .error "invalid byte length"
  | _ => .error "expected bytes"

/-- Modelled from the spec: the `SignatureVisitor` of the `algonaut_encoding`
crate (source not under `src/`) — accept exactly a 64-byte byte string. -/
def deserBytes64 : SerValue → Except String (List Nat)
  | .bytes bs => if bs.length = 64 then .ok bs else .error "invalid byte length"
  | _ => .error "expected bytes"

/-- `Deserialize for Address` via `U8_32Visitor`. -/
def deserAddress (v : SerValue) : Except String Address :=
  (deserBytes32 v).map Address.new

/-- `Deserialize for VotePk` via `U8_32Visitor`. -/
def deserVotePk (v : SerValue) : Except String VotePk :=
  (deserBytes32 v).map VotePk.mk

/-- `Deserialize for VrfPk` via `U8_32Visitor`. -/
def deserVrfPk (v : SerValue) : Except String VrfPk :=
  (deserBytes32 v).map VrfPk.mk

/-- `Deserialize for Signature` via `SignatureVisitor`. -/
def deserSignature (v : SerValue) : Except String Signature :=
  (deserBytes64 v).map Signature.mk

/-! ### Multisig aggregation (modelled from the spec)

The repository's `merge` and `is_complete` operations for partial multisig
signature sets are described in the spec (§4.4, §5, §8) but their code is not
under `src/`; they are modelled here from the spec's words. -/

/-- Errors of the aggregation operations named by the spec. -/
inductive MsigError where
  | identityMismatch
  | conflictingSignature
deriving DecidableEq, Repr

/-- Modelled from the spec: combine one subsignature slot by taking whichever
side has a signature present; two different signatures offered for the same
signer slot are rejected with `ConflictingSignature` (spec §4.4), which keeps
the combination symmetric as §5 requires. -/
def combineSlots (x y : MultisigSubsig) : Except MsigError MultisigSubsig :=
  match x.sig, y.sig with
  | none, none => .ok ⟨x.key, none⟩
  | some s, none => .ok ⟨x.key, some s⟩
  | none, some s => .ok ⟨x.key, some s⟩
  | some s, some t => if s = t then .ok ⟨x.key, some s⟩ else .error .conflictingSignature

/-- Modelled from the spec: combine two subsignature lists position by position. -/
def mergeSubsigs : List MultisigSubsig → List MultisigSubsig → Except MsigError (List MultisigSubsig)
  | [], [] => .ok []
  | x :: xs, y :: ys =>
    match combineSlots x y with
    | .error e => .error e
    | .ok z =>
      match mergeSubsigs xs ys with
      | .error e => .error e
      | .ok zs => .ok (z :: zs)
  | _, _ => .error .identityMismatch

/-- The ordered key list of a multisig signature value. -/
def MultisigSignature.keys (m : MultisigSignature) : List Ed25519PublicKey :=
  m.subsigs.map MultisigSubsig.key

/-- Modelled from the spec: `merge(a, b)` — combine two partial signature sets
for the same identity (same version, threshold and key list, otherwise
`IdentityMismatch`) by taking, for each position, whichever side has a
signature present. -/
def merge (a b : MultisigSignature) : Except MsigError MultisigSignature :=
  if a.version = b.version ∧ a.threshold = b.threshold ∧ a.keys = b.keys then
    (mergeSubsigs a.subsigs b.subsigs).map (fun ss => ⟨ss, a.threshold, a.version⟩)
  else
    .error .identityMismatch

/-- Modelled from the spec: `is_complete` — true iff the count of present
signatures is at least the threshold. -/
def MultisigSignature.is_complete (m : MultisigSignature) : Bool :=
  m.threshold ≤ m.subsigs.countP (fun s => s.sig.isSome)

/-- The number of positions signed on at least one of the two sides. -/
def unionCount (a b : MultisigSignature) : Nat :=
  (List.zipWith (fun x y => x.sig.isSome || y.sig.isSome) a.subsigs b.subsigs).countP
    (fun b => b)

/-! ### Lemmas about the bit-level codec -/

set_option maxRecDepth 4000 in
theorem bitsVal_byteToBits : ∀ b : Nat, b < 256 → bitsVal (byteToBits b) = b := by decide

theorem valToBits_bitsVal : ∀ b4 b3 b2 b1 b0 : Bool,
    valToBits (bitsVal [b4, b3, b2, b1, b0]) = [b4, b3, b2, b1, b0] := by decide

theorem bitsVal_five_lt : ∀ b4 b3 b2 b1 b0 : Bool, bitsVal [b4, b3, b2, b1, b0] < 32 := by
  decide

theorem charToVal_valToChar : ∀ v : Nat, v < 32 → charToVal (valToChar v) = some v := by
  decide

theorem valToChar_ne_pad : ∀ v : Nat, v < 32 → valToChar v ≠ '=' := by decide

theorem bytesToBits_length (bs : List Nat) : (bytesToBits bs).length = 8 * bs.length := by
  induction bs with
  | nil => rfl
  | cons b rest ih =>
    simp only [bytesToBits, List.length_append, ih, byteToBits, List.length_cons,
      List.length_nil]
    omega

theorem bitsToBytes_byte (b : Nat) (rest : List Bool) :
    bitsToBytes (byteToBits b ++ rest) = bitsVal (byteToBits b) :: bitsToBytes rest := rfl

theorem bitsToBytes_bytesToBits (bs : List Nat) (hb : ∀ b ∈ bs, b < 256) :
    bitsToBytes (bytesToBits bs) = bs := by
  induction bs with
  | nil => rfl
  | cons b rest ih =>
    have h1 : b < 256 := hb b (List.mem_cons_self _ _)
    have h2 : ∀ x ∈ rest, x < 256 := fun x hx => hb x (List.mem_cons_of_mem _ hx)
    show bitsToBytes (byteToBits b ++ bytesToBits rest) = b :: rest
    rw [bitsToBytes_byte, bitsVal_byteToBits b h1, ih h2]

theorem bitsToVals_five (v : Nat) (rest : List Bool) (h : v < 32) :
    bitsToVals (valToBits v ++ rest) = v :: bitsToVals rest := by
  show bitsVal (valToBits v) :: bitsToVals rest = v :: bitsToVals rest
  have : ∀ v : Nat, v < 32 → bitsVal (valToBits v) = v := by decide
  rw [this v h]

theorem valsToBits_bitsToVals : ∀ l : List Bool, 5 ∣ l.length →
    valsToBits (bitsToVals l) = l := by
  intro l
  induction l using bitsToVals.induct with
  | case1 b4 b3 b2 b1 b0 rest ih =>
    intro h
    have h5 : 5 ∣ rest.length := by
      simp only [List.length_cons] at h
      omega
    rw [bitsToVals, valsToBits, valToBits_bitsVal, ih h5]
    rfl
  | case2 l h1 =>
    intro h
    rcases l with _ | ⟨a, l⟩
    · rfl
    rcases l with _ | ⟨b, l⟩
    · simp only [List.length_cons, List.length_nil] at h; omega
    rcases l with _ | ⟨c, l⟩
    · simp only [List.length_cons, List.length_nil] at h; omega
    rcases l with _ | ⟨d, l⟩
    · simp only [List.length_cons, List.length_nil] at h; omega
    rcases l with _ | ⟨e, l⟩
    · simp only [List.length_cons, List.length_nil] at h; omega
    exact (h1 a b c d e l rfl).elim

theorem bitsToVals_length : ∀ l : List Bool, (bitsToVals l).length = l.length / 5 := by
  intro l
  induction l using bitsToVals.induct with
  | case1 b4 b3 b2 b1 b0 rest ih =>
    rw [bitsToVals]
    simp only [List.length_cons, ih]
    omega
  | case2 l h1 =>
    rcases l with _ | ⟨a, l⟩
    · rfl
    rcases l with _ | ⟨b, l⟩
    · norm_num [bitsToVals]
    rcases l with _ | ⟨c, l⟩
    · norm_num [bitsToVals]
    rcases l with _ | ⟨d, l⟩
    · norm_num [bitsToVals]
    rcases l with _ | ⟨e, l⟩
    · norm_num [bitsToVals]
    exact (h1 a b c d e l rfl).elim

theorem bitsToVals_lt : ∀ l : List Bool, ∀ v ∈ bitsToVals l, v < 32 := by
  intro l
  induction l using bitsToVals.induct with
  | case1 b4 b3 b2 b1 b0 rest ih =>
    intro v hv
    rw [bitsToVals] at hv
    rcases List.mem_cons.mp hv with h | h
    · rw [h]; exact bitsVal_five_lt b4 b3 b2 b1 b0
    · exact ih v h
  | case2 l h1 =>
    intro v hv
    rcases l with _ | ⟨a, l⟩
    · simp [bitsToVals] at hv
    rcases l with _ | ⟨b, l⟩
    · simp [bitsToVals] at hv
    rcases l with _ | ⟨c, l⟩
    · simp [bitsToVals] at hv
    rcases l with _ | ⟨d, l⟩
    · simp [bitsToVals] at hv
    rcases l with _ | ⟨e, l⟩
    · simp [bitsToVals] at hv
    exact (h1 a b c d e l rfl).elim

theorem charsToVals_map (vs : List Nat) (h : ∀ v ∈ vs, v < 32) :
    charsToVals (vs.map valToChar) = some vs := by
  induction vs with
  | nil => rfl
  | cons v rest ih =>
    have h1 : charToVal (valToChar v) = some v :=
      charToVal_valToChar v (h v (List.mem_cons_self _ _))
    have h2 : charsToVals (rest.map valToChar) = some rest :=
      ih fun x hx => h x (List.mem_cons_of_mem _ hx)
    simp only [List.map_cons, charsToVals, h1, h2]

/-! ### Lemmas about the digest's shape -/

theorem natToBytesBE_length (k : Nat) : ∀ n : Nat, (natToBytesBE k n).length = k := by
  induction k with
  | zero => intro n; rfl
  | succ k ih =>
    intro n
    simp only [natToBytesBE, List.length_append, ih, List.length_cons, List.length_nil]

theorem natToBytesBE_lt (k : Nat) : ∀ n : Nat, ∀ b ∈ natToBytesBE k n, b < 256 := by
  induction k with
  | zero => intro n b hb; simp [natToBytesBE] at hb
  | succ k ih =>
    intro n b hb
    simp only [natToBytesBE, List.mem_append, List.mem_singleton] at hb
    rcases hb with h | h
    · exact ih _ b h
    · rw [h]; exact Nat.mod_lt _ (by norm_num)

theorem wordsToBytes_length (ws : List Nat) : (wordsToBytes ws).length = 8 * ws.length := by
  induction ws with
  | nil => rfl
  | cons w rest ih =>
    simp only [wordsToBytes, List.length_append, ih, natToBytesBE_length, List.length_cons]
    omega

theorem wordsToBytes_lt (ws : List Nat) : ∀ b ∈ wordsToBytes ws, b < 256 := by
  induction ws with
  | nil => intro b hb; simp [wordsToBytes] at hb
  | cons w rest ih =>
    intro b hb
    simp only [wordsToBytes, List.mem_append] at hb
    rcases hb with h | h
    · exact natToBytesBE_lt 8 w b h
    · exact ih b h

theorem sha512Compress_length (hs block : List Nat) : (sha512Compress hs block).length = 8 :=
  rfl

theorem foldl_compress_length (blocks : List (List Nat)) :
    ∀ hs : List Nat, (blocks.foldl sha512Compress hs).length = 8 ∨
      blocks.foldl sha512Compress hs = hs := by
  induction blocks with
  | nil => intro hs; exact Or.inr rfl
  | cons block rest ih =>
    intro hs
    rcases ih (sha512Compress hs block) with h | h
    · exact Or.inl (by simpa [List.foldl] using h)
    · refine Or.inl ?_
      simp only [List.foldl, h, sha512Compress_length]

theorem sha512_256Digest_length (msg : List Nat) : (sha512_256Digest msg).length = 32 := by
  unfold sha512_256Digest
  rw [wordsToBytes_length, List.length_take]
  rcases foldl_compress_length (toBlocks (bytesToWords (sha512Pad msg))) sha512_256IV
    with h | h
  · rw [h]; norm_num
  · rw [h]; rfl

theorem sha512_256Digest_lt (msg : List Nat) : ∀ b ∈ sha512_256Digest msg, b < 256 :=
  wordsToBytes_lt _

/-! ### The base-32 round trip on 36-byte payloads -/

theorem base32Encode_eq36 (bs : List Nat) (h36 : bs.length = 36) :
    base32Encode bs = (bitsToVals (bytesToBits bs ++ [false, false])).map valToChar := by
  have hbits : (bytesToBits bs).length = 288 := by rw [bytesToBits_length, h36]
  simp only [base32Encode, hbits]
  norm_num [List.replicate]

theorem base32Encode_length36 (bs : List Nat) (h36 : bs.length = 36) :
    (base32Encode bs).length = 58 := by
  have hbits : (bytesToBits bs).length = 288 := by rw [bytesToBits_length, h36]
  rw [base32Encode_eq36 bs h36, List.length_map, bitsToVals_length]
  simp [List.length_append, hbits]

theorem base32_roundtrip36 (bs : List Nat) (h36 : bs.length = 36)
    (hb : ∀ b ∈ bs, b < 256) : base32Decode (base32Encode bs) = .ok bs := by
  have hbits : (bytesToBits bs).length = 288 := by rw [bytesToBits_length, h36]
  have hvals_lt := bitsToVals_lt (bytesToBits bs ++ [false, false])
  have hcv : charsToVals ((bitsToVals (bytesToBits bs ++ [false, false])).map valToChar)
      = some (bitsToVals (bytesToBits bs ++ [false, false])) :=
    charsToVals_map _ hvals_lt
  have hvlen : (bitsToVals (bytesToBits bs ++ [false, false])).length = 58 := by
    rw [bitsToVals_length]
    simp [List.length_append, hbits]
  have hdvd : 5 ∣ (bytesToBits bs ++ [false, false]).length := by
    simp only [List.length_append, hbits]
    norm_num
  have hvb : valsToBits (bitsToVals (bytesToBits bs ++ [false, false]))
      = bytesToBits bs ++ [false, false] :=
    valsToBits_bitsToVals _ hdvd
  rw [base32Encode_eq36 bs h36]
  unfold base32Decode
  rw [hcv]
  simp only [hvlen, hvb]
  norm_num
  rw [List.take_left' hbits, List.drop_left' hbits]
  rw [bitsToBytes_bytesToBits bs hb]
  rfl

theorem base32Encode_no_pad_char (bs : List Nat) : ∀ c ∈ base32Encode bs, c ≠ '=' := by
  intro c hc
  simp only [base32Encode, List.mem_map] at hc
  obtain ⟨v, hv, rfl⟩ := hc
  exact valToChar_ne_pad v (bitsToVals_lt _ v hv)

/-! ### Case analysis of `Address::from_string` -/

theorem from_string_decode_error (s : String) (err : Base32Error)
    (h : base32Decode s.data = .error err) :
    Address.from_string s = .error ("Error decoding base32: " ++ base32ErrorString err) := by
  unfold Address.from_string
  rw [h]

theorem from_string_wrong_length (s : String) (bs : List Nat)
    (h : base32Decode s.data = .ok bs) (hne : bs.length ≠ 36) :
    Address.from_string s = .error "Input string is an invalid address. Wrong length" := by
  unfold Address.from_string
  rw [h]
  simp only [HASH_LEN, CHECKSUM_LEN]
  rw [if_pos (by omega)]

theorem from_string_checksum_mismatch (s : String) (bs : List Nat)
    (h : base32Decode s.data = .ok bs) (h36 : bs.length = 36)
    (hne : (sha512_256Digest (bs.take 32)).drop 28 ≠ bs.drop 32) :
    Address.from_string s = .error "Input checksum did not validate" := by
  unfold Address.from_string
  rw [h]
  simp only [HASH_LEN, CHECKSUM_LEN]
  rw [if_neg (by omega)]
  exact if_neg hne

theorem from_string_checksum_ok (s : String) (bs : List Nat)
    (h : base32Decode s.data = .ok bs) (h36 : bs.length = 36)
    (heq : (sha512_256Digest (bs.take 32)).drop 28 = bs.drop 32) :
    Address.from_string s = .ok (Address.new (bs.take 32)) := by
  unfold Address.from_string
  rw [h]
  simp only [HASH_LEN, CHECKSUM_LEN]
  rw [if_neg (by omega)]
  exact if_pos heq

theorem from_string_ok_inv (s : String) (a : Address)
    (h : Address.from_string s = .ok a) :
    ∃ bs, base32Decode s.data = .ok bs ∧ bs.length = 36 ∧
      (sha512_256Digest (bs.take 32)).drop 28 = bs.drop 32 ∧
      a = Address.new (bs.take 32) := by
  cases hdec : base32Decode s.data with
  | error err =>
    rw [from_string_decode_error s err hdec] at h
    exact absurd h (by simp)
  | ok bs =>
    by_cases h36 : bs.length = 36
    · by_cases hc : (sha512_256Digest (bs.take 32)).drop 28 = bs.drop 32
      · refine ⟨bs, rfl, h36, hc, ?_⟩
        rw [from_string_checksum_ok s bs hdec h36 hc] at h
        exact (Except.ok.injEq _ _ ▸ h).symm
      · rw [from_string_checksum_mismatch s bs hdec h36 hc] at h
        exact absurd h (by simp)
    · rw [from_string_wrong_length s bs hdec h36] at h
      exact absurd h (by simp)

/-- The checksum payload appended and encoded by `Address::encode_string`. -/
theorem encode_string_eq (a : Address) :
    Address.encode_string a
      = String.mk (base32Encode (a.bytes ++ (sha512_256Digest a.bytes).drop 28)) := rfl

theorem encode_payload_length (a : Address) (h32 : a.bytes.length = 32) :
    (a.bytes ++ (sha512_256Digest a.bytes).drop 28).length = 36 := by
  rw [List.length_append, List.length_drop, sha512_256Digest_length, h32]

theorem encode_payload_lt (a : Address) (hb : ∀ b ∈ a.bytes, b < 256) :
    ∀ b ∈ a.bytes ++ (sha512_256Digest a.bytes).drop 28, b < 256 := by
  intro b hmem
  rcases List.mem_append.mp hmem with h | h
  · exact hb b h
  · exact sha512_256Digest_lt a.bytes b (List.mem_of_mem_drop h)

/-! ### Claim theorems: the address codec -/

/-- C1: for every `Address` `a` (any 32-byte hash),
`Address::from_string(Address::encode_string(a))` succeeds and returns an
`Address` equal to `a`, and the string produced by `encode_string` is always
exactly 58 characters long with no trailing padding character. -/
theorem c1_address_roundtrip (a : Address) (h32 : a.bytes.length = 32)
    (hb : ∀ b ∈ a.bytes, b < 256) :
    Address.from_string (Address.encode_string a) = .ok a ∧
    (Address.encode_string a).length = 58 ∧
    ∀ c ∈ (Address.encode_string a).data, c ≠ '=' := by
  have hlen := encode_payload_length a h32
  have hball := encode_payload_lt a hb
  have hdata : (Address.encode_string a).data
      = base32Encode (a.bytes ++ (sha512_256Digest a.bytes).drop 28) := rfl
  have hdec : base32Decode (Address.encode_string a).data
      = .ok (a.bytes ++ (sha512_256Digest a.bytes).drop 28) := by
    rw [hdata]
    exact base32_roundtrip36 _ hlen hball
  refine ⟨?_, ?_, ?_⟩
  · have hok := from_string_checksum_ok (Address.encode_string a) _ hdec hlen ?check
    · rw [hok, List.take_left' h32]
      cases a
      rfl
    case check =>
      rw [List.take_left' h32, List.drop_left' h32]
  · have : (Address.encode_string a).length = (Address.encode_string a).data.length := rfl
    rw [this, hdata]
    exact base32Encode_length36 _ hlen
  · rw [hdata]
    exact base32Encode_no_pad_char _

/-- Witness for C1 at the all-zero 32-byte address. -/
theorem c1_address_roundtrip_witness :
    Address.from_string (Address.encode_string (Address.new (List.replicate 32 0)))
        = .ok (Address.new (List.replicate 32 0)) ∧
    (Address.encode_string (Address.new (List.replicate 32 0))).length = 58 ∧
    ∀ c ∈ (Address.encode_string (Address.new (List.replicate 32 0))).data, c ≠ '=' :=
  c1_address_roundtrip (Address.new (List.replicate 32 0)) (by decide) (by decide)

/-- C2: `Address::from_string` base-32-decodes its input without padding; a
decode failure is propagated as a base-32 error; a decoded length other than
36 fails with the wrong-length error; at length 36 the last four bytes are
compared against the last four bytes of the SHA-512/256 digest of the first
32, failing with the checksum error on mismatch and returning the wrapped
first 32 bytes on match; and an `ok` result only ever arises that way. -/
theorem c2_from_string_cases :
    (∀ s err, base32Decode s.data = .error err →
      Address.from_string s = .error ("Error decoding base32: " ++ base32ErrorString err)) ∧
    (∀ s bs, base32Decode s.data = .ok bs → bs.length ≠ 36 →
      Address.from_string s = .error "Input string is an invalid address. Wrong length") ∧
    (∀ s bs, base32Decode s.data = .ok bs → bs.length = 36 →
      (sha512_256Digest (bs.take 32)).drop 28 ≠ bs.drop 32 →
      Address.from_string s = .error "Input checksum did not validate") ∧
    (∀ s bs, base32Decode s.data = .ok bs → bs.length = 36 →
      (sha512_256Digest (bs.take 32)).drop 28 = bs.drop 32 →
      Address.from_string s = .ok (Address.new (bs.take 32))) ∧
    (∀ s a, Address.from_string s = .ok a →
      ∃ bs, base32Decode s.data = .ok bs ∧ bs.length = 36 ∧
        (sha512_256Digest (bs.take 32)).drop 28 = bs.drop 32 ∧
        a = Address.new (bs.take 32)) :=
  ⟨from_string_decode_error, from_string_wrong_length, from_string_checksum_mismatch,
   from_string_checksum_ok, from_string_ok_inv⟩

set_option maxRecDepth 8000 in
/-- Witness for C2: each branch of `from_string` exercised at a concrete input —
a non-alphabet character, a two-character input decoding to one byte, a
36-byte payload with mismatched checksum, and the known good string. -/
theorem c2_from_string_cases_witness :
    Address.from_string (String.mk ['0'])
        = .error ("Error decoding base32: " ++ base32ErrorString .invalidChar) ∧
    Address.from_string (String.mk ['A', 'A'])
        = .error "Input string is an invalid address. Wrong length" ∧
    Address.from_string mismatchChecksumString
        = .error "Input checksum did not validate" ∧
    Address.from_string goodAddressString
        = .ok (Address.new (((base32Decode goodAddressString.data).toOption.getD []).take 32)) ∧
    ∃ bs, base32Decode goodAddressString.data = .ok bs ∧ bs.length = 36 ∧
      (sha512_256Digest (bs.take 32)).drop 28 = bs.drop 32 ∧
      Address.new (((base32Decode goodAddressString.data).toOption.getD []).take 32)
        = Address.new (bs.take 32) := by
  obtain ⟨p1, p2, p3, p4, p5⟩ := c2_from_string_cases
  refine ⟨p1 _ .invalidChar (by decide), p2 _ [0] (by decide) (by decide),
    p3 _ ((base32Decode mismatchChecksumString.data).toOption.getD [])
      (by decide) (by decide) (by decide),
    p4 _ ((base32Decode goodAddressString.data).toOption.getD [])
      (by decide) (by decide) (by decide),
    p5 _ _ (p4 _ ((base32Decode goodAddressString.data).toOption.getD [])
      (by decide) (by decide) (by decide))⟩

set_option maxRecDepth 8000 in
/-- C9: decoding the known-good literal address string succeeds and re-encoding
returns the identical string; decoding the same string with its last character
changed to `J` fails. -/
theorem c9_known_address_vector :
    (Address.from_string goodAddressString).toOption.map Address.encode_string
        = some goodAddressString ∧
    (Address.from_string badChecksumString).toOption = none := by
  exact ⟨by decide, by decide⟩

/-! ### Claim theorems: the multisig identity -/

theorem keysFlat_inj : ∀ ks1 ks2 : List Ed25519PublicKey, ks1.length = ks2.length →
    (∀ k ∈ ks1, k.bytes.length = 32) → (∀ k ∈ ks2, k.bytes.length = 32) →
    keysFlat ks1 = keysFlat ks2 → ks1 = ks2 := by
  intro ks1
  induction ks1 with
  | nil =>
    intro ks2 hlen _ _ _
    cases ks2 with
    | nil => rfl
    | cons k ks => simp at hlen
  | cons k1 rest1 ih =>
    intro ks2 hlen hb1 hb2 hflat
    cases ks2 with
    | nil => simp at hlen
    | cons k2 rest2 =>
      simp only [keysFlat] at hflat
      have hk32 : k1.bytes.length = k2.bytes.length := by
        rw [hb1 k1 (List.mem_cons_self _ _), hb2 k2 (List.mem_cons_self _ _)]
      obtain ⟨hk, hrest⟩ := List.append_inj hflat hk32
      have hkeq : k1 = k2 := by
        cases k1; cases k2
        simpa using hk
      have hreq : rest1 = rest2 :=
        ih rest2 (by simpa using hlen)
          (fun k hk => hb1 k (List.mem_cons_of_mem _ hk))
          (fun k hk => hb2 k (List.mem_cons_of_mem _ hk)) hrest
      rw [hkeq, hreq]

set_option maxRecDepth 2000 in
/-- C3 counterexample: transposing the two (equal) keys of a two-key multisig
is a permutation of the key order, yet the derived address is unchanged — the
unconditional "permuting the key order changes the resulting Address" fails. -/
theorem c3_counterexample :
    MultisigAddress.address
        ⟨1, 2, (List.replicate 2 (Ed25519PublicKey.mk (List.replicate 32 0))).reverse⟩
      = MultisigAddress.address
        ⟨1, 2, List.replicate 2 (Ed25519PublicKey.mk (List.replicate 32 0))⟩ := by
  have h : (List.replicate 2 (Ed25519PublicKey.mk (List.replicate 32 0))).reverse
      = List.replicate 2 (Ed25519PublicKey.mk (List.replicate 32 0)) := rfl
  exact congrArg (fun l => MultisigAddress.address ⟨1, 2, l⟩) h

/-- C3 (amended): `MultisigAddress::address` hashes the buffer
`"MultisigAddr" ++ [version] ++ [threshold] ++ keys` with SHA-512/256 and uses
the full 32-byte digest; it is a pure function of (version, threshold, ordered
keys); and permuting the key order changes the hashed buffer whenever the
permuted 32-byte key list differs from the original. -/
theorem c3_address_determinism :
    (∀ m : MultisigAddress,
      m.address = Address.new (sha512_256Digest
        (msigPrefixBytes ++ m.version :: m.threshold :: keysFlat m.public_keys))) ∧
    (∀ m1 m2 : MultisigAddress, m1.version = m2.version → m1.threshold = m2.threshold →
      m1.public_keys = m2.public_keys → m1.address = m2.address) ∧
    (∀ m1 m2 : MultisigAddress, m1.version = m2.version → m1.threshold = m2.threshold →
      m1.public_keys.length = m2.public_keys.length →
      (∀ k ∈ m1.public_keys, k.bytes.length = 32) →
      (∀ k ∈ m2.public_keys, k.bytes.length = 32) →
      m1.public_keys ≠ m2.public_keys → m1.buf ≠ m2.buf) := by
  refine ⟨fun m => rfl, ?_, ?_⟩
  · intro m1 m2 hv ht hk
    cases m1; cases m2
    simp only at hv ht hk
    rw [hv, ht, hk]
  · intro m1 m2 hv ht hlen hb1 hb2 hne hbuf
    apply hne
    unfold MultisigAddress.buf at hbuf
    have h1 := List.append_cancel_left hbuf
    simp only [List.cons.injEq] at h1
    exact keysFlat_inj _ _ hlen hb1 hb2 h1.2.2

/-- Witness for C3 (amended): two distinct 32-byte keys, transposed, give a
different hash buffer. -/
theorem c3_address_determinism_witness :
    MultisigAddress.address ⟨1, 1, [Ed25519PublicKey.mk (List.replicate 32 0)]⟩
      = MultisigAddress.address ⟨1, 1, [Ed25519PublicKey.mk (List.replicate 32 0)]⟩ ∧
    MultisigAddress.buf ⟨1, 2, [Ed25519PublicKey.mk (List.replicate 32 0),
        Ed25519PublicKey.mk (List.replicate 32 1)]⟩
      ≠ MultisigAddress.buf ⟨1, 2, [Ed25519PublicKey.mk (List.replicate 32 1),
        Ed25519PublicKey.mk (List.replicate 32 0)]⟩ :=
  ⟨c3_address_determinism.2.1 _ _ rfl rfl rfl,
   c3_address_determinism.2.2 _ _ rfl rfl (by decide) (by decide) (by decide) (by decide)⟩

set_option maxRecDepth 8000 in
/-- C4 counterexample: with 256 addresses, version 1 and threshold 1 the claim
asserts success (1 ≤ threshold ≤ len(addresses)), but the `as u8` cast wraps
the length to 0 and construction fails. -/
theorem c4_counterexample :
    (List.replicate 256 (Address.new (List.replicate 32 0))).length = 256 ∧
    MultisigAddress.new 1 1 (List.replicate 256 (Address.new (List.replicate 32 0)))
      = .error "Invalid threshold" := by
  exact ⟨by decide, by decide⟩

/-- C4 (amended): `MultisigAddress::new` fails with the unsupported-version
error for every version ≠ 1; with version 1 it fails with the
invalid-threshold error whenever the threshold is 0, the address list is
empty, or the threshold exceeds len(addresses) mod 256 (the list length is
cast to `u8` before the comparison); and it succeeds for every input with
version 1 and 1 ≤ threshold ≤ len(addresses) mod 256. -/
theorem c4_new_validation :
    (∀ v t : Nat, ∀ addrs : List Address, v ≠ 1 →
      MultisigAddress.new v t addrs = .error "Unknown msig version") ∧
    (∀ t : Nat, ∀ addrs : List Address,
      t = 0 ∨ addrs = [] ∨ t > addrs.length % 256 →
      MultisigAddress.new 1 t addrs = .error "Invalid threshold") ∧
    (∀ t : Nat, ∀ addrs : List Address, 1 ≤ t → t ≤ addrs.length % 256 →
      MultisigAddress.new 1 t addrs
        = .ok ⟨1, t, addrs.map (fun address => ⟨address.bytes⟩)⟩) := by
  refine ⟨?_, ?_, ?_⟩
  · intro v t addrs hv
    unfold MultisigAddress.new
    rw [if_pos hv]
  · intro t addrs h
    unfold MultisigAddress.new
    rw [if_neg (by omega), if_pos ?cond]
    case cond =>
      rcases h with h | h | h
      · exact Or.inl h
      · exact Or.inr (Or.inl (by rw [h]; rfl))
      · exact Or.inr (Or.inr h)
  · intro t addrs h1 h2
    unfold MultisigAddress.new
    rw [if_neg (by omega), if_neg ?cond]
    case cond =>
      push_neg
      refine ⟨by omega, ?_, by omega⟩
      cases addrs with
      | nil => simp at h2; omega
      | cons a rest => simp [List.isEmpty]

/-- Witness for C4 (amended): version 2 rejected; threshold 0 rejected; version
1 with threshold 1 over one address accepted. -/
theorem c4_new_validation_witness :
    MultisigAddress.new 2 1 [Address.new (List.replicate 32 0)]
      = .error "Unknown msig version" ∧
    MultisigAddress.new 1 0 [Address.new (List.replicate 32 0)]
      = .error "Invalid threshold" ∧
    MultisigAddress.new 1 1 [Address.new (List.replicate 32 0)]
      = .ok ⟨1, 1, [Address.new (List.replicate 32 0)].map (fun address => ⟨address.bytes⟩)⟩ :=
  ⟨c4_new_validation.1 2 1 _ (by decide),
   c4_new_validation.2.1 0 _ (Or.inl rfl),
   c4_new_validation.2.2 1 _ (by decide) (by decide)⟩

/-- C10: when `MultisigAddress::new` succeeds, the returned value stores
version and threshold unchanged and its `public_keys` list is exactly the
input addresses reinterpreted byte-for-byte as public keys, in the same
order, with the same length — no hashing, sorting or deduplication. -/
theorem c10_new_preserves (v t : Nat) (addrs : List Address) (m : MultisigAddress)
    (h : MultisigAddress.new v t addrs = .ok m) :
    m.version = v ∧ m.threshold = t ∧
    m.public_keys.length = addrs.length ∧
    m.public_keys = addrs.map (fun address => ⟨address.bytes⟩) ∧
    ∀ i : Nat, m.public_keys[i]? = addrs[i]?.map (fun address => ⟨address.bytes⟩) := by
  unfold MultisigAddress.new at h
  by_cases h1 : v ≠ 1
  · rw [if_pos h1] at h
    exact absurd h (by simp)
  · rw [if_neg h1] at h
    by_cases h2 : t = 0 ∨ addrs.isEmpty = true ∨ t > addrs.length % 256
    · rw [if_pos h2] at h
      exact absurd h (by simp)
    · rw [if_neg h2] at h
      injection h with hm
      subst hm
      exact ⟨rfl, rfl, by simp, rfl, fun i => by simp⟩

/-! ### Claim theorems: canonical serialization -/

/-- C5: every `MultisigSignature` serializes as a map with exactly three
entries, in the fixed order `subsig`, `thr`, `v`, carrying the subsignature
list, the threshold and the version. -/
theorem c5_multisig_signature_ser (ms : MultisigSignature) :
    ∃ entries, serMultisigSignature ms = .map entries ∧
      entries.length = 3 ∧
      entries.map Prod.fst = ["subsig", "thr", "v"] ∧
      entries = [("subsig", .arr (serSubsigList ms.subsigs)),
                 ("thr", .int ms.threshold), ("v", .int ms.version)] :=
  ⟨_, rfl, rfl, rfl, rfl⟩

/-- C6: a `MultisigSubsig` serializes as a map whose first entry is always the
`pk` entry; the `s` entry is present exactly when the signature is present;
with an absent signature the map is exactly the one-entry `pk` map (the `s`
key is omitted, and no entry is a nil value). -/
theorem c6_subsig_ser :
    (∀ s : MultisigSubsig, s.sig = none →
      serMultisigSubsig s = .map [("pk", serEd25519PublicKey s.key)]) ∧
    (∀ s : MultisigSubsig, ∀ sg, s.sig = some sg →
      serMultisigSubsig s
        = .map [("pk", serEd25519PublicKey s.key), ("s", serSignature sg)]) ∧
    (∀ s : MultisigSubsig, ∃ entries, serMultisigSubsig s = .map entries ∧
      entries.head? = some ("pk", serEd25519PublicKey s.key) ∧
      (("s" ∈ entries.map Prod.fst) ↔ s.sig.isSome = true) ∧
      ∀ e ∈ entries, e.2 ≠ SerValue.nul) := by
  refine ⟨?_, ?_, ?_⟩
  · intro s hs
    simp [serMultisigSubsig, hs]
  · intro s sg hs
    simp [serMultisigSubsig, hs]
  · intro s
    cases hs : s.sig with
    | none =>
      refine ⟨[("pk", serEd25519PublicKey s.key)], by simp [serMultisigSubsig, hs], rfl,
        by simp [hs], ?_⟩
      intro e he
      simp only [List.mem_singleton] at he
      subst he
      exact fun hcon => SerValue.noConfusion hcon
    | some sg =>
      refine ⟨[("pk", serEd25519PublicKey s.key), ("s", serSignature sg)],
        by simp [serMultisigSubsig, hs], rfl, by simp [hs], ?_⟩
      intro e he
      simp only [List.mem_cons, List.mem_singleton, List.not_mem_nil, or_false] at he
      rcases he with he | he <;> subst he <;> exact fun hcon => SerValue.noConfusion hcon

/-- Witness for C6 at an unsigned and a signed slot. -/
theorem c6_subsig_ser_witness :
    serMultisigSubsig ⟨Ed25519PublicKey.mk (List.replicate 32 0), none⟩
      = .map [("pk", serEd25519PublicKey (Ed25519PublicKey.mk (List.replicate 32 0)))] ∧
    serMultisigSubsig ⟨Ed25519PublicKey.mk (List.replicate 32 0),
        some (Signature.mk (List.replicate 64 1))⟩
      = .map [("pk", serEd25519PublicKey (Ed25519PublicKey.mk (List.replicate 32 0))),
              ("s", serSignature (Signature.mk (List.replicate 64 1)))] :=
  ⟨c6_subsig_ser.1 ⟨Ed25519PublicKey.mk (List.replicate 32 0), none⟩ rfl,
   c6_subsig_ser.2.1 ⟨Ed25519PublicKey.mk (List.replicate 32 0),
     some (Signature.mk (List.replicate 64 1))⟩ (Signature.mk (List.replicate 64 1)) rfl⟩

/-- C7: a `Signature` serializes as a raw 64-byte byte string and never as a
list of integers; `Address`, `VotePk` and `VrfPk` serialize as raw 32-byte
byte strings; and each corresponding deserializer accepts exactly the right
byte length, rejecting every other length. -/
theorem c7_byte_newtype_ser :
    (∀ sg : Signature, sg.bytes.length = 64 →
      serSignature sg = .bytes sg.bytes ∧
      ∃ bs, serSignature sg = .bytes bs ∧ bs.length = 64) ∧
    (∀ sg : Signature, ∀ items, serSignature sg ≠ .arr items) ∧
    (∀ a : Address, a.bytes.length = 32 →
      ∃ bs, serAddress a = .bytes bs ∧ bs.length = 32) ∧
    (∀ k : VotePk, k.bytes.length = 32 →
      ∃ bs, serVotePk k = .bytes bs ∧ bs.length = 32) ∧
    (∀ k : VrfPk, k.bytes.length = 32 →
      ∃ bs, serVrfPk k = .bytes bs ∧ bs.length = 32) ∧
    (∀ bs : List Nat, bs.length = 64 →
      deserSignature (.bytes bs) = .ok (Signature.mk bs)) ∧
    (∀ bs : List Nat, bs.length ≠ 64 →
      deserSignature (.bytes bs) = .error "invalid byte length") ∧
    (∀ bs : List Nat, bs.length = 32 →
      deserAddress (.bytes bs) = .ok (Address.new bs) ∧
      deserVotePk (.bytes bs) = .ok (VotePk.mk bs) ∧
      deserVrfPk (.bytes bs) = .ok (VrfPk.mk bs)) ∧
    (∀ bs : List Nat, bs.length ≠ 32 →
      deserAddress (.bytes bs) = .error "invalid byte length" ∧
      deserVotePk (.bytes bs) = .error "invalid byte length" ∧
      deserVrfPk (.bytes bs) = .error "invalid byte length") := by
  refine ⟨fun sg h => ⟨rfl, sg.bytes, rfl, h⟩,
    fun sg items hcon => SerValue.noConfusion hcon,
    fun a h => ⟨a.bytes, rfl, h⟩,
    fun k h => ⟨k.bytes, rfl, h⟩,
    fun k h => ⟨k.bytes, rfl, h⟩,
    ?_, ?_, ?_, ?_⟩
  · intro bs h
    simp [deserSignature, deserBytes64, h, Except.map]
  · intro bs h
    simp [deserSignature, deserBytes64, h, Except.map]
  · intro bs h
    refine ⟨?_, ?_, ?_⟩ <;>
      simp [deserAddress, deserVotePk, deserVrfPk, deserBytes32, h, Except.map, Address.new]
  · intro bs h
    refine ⟨?_, ?_, ?_⟩ <;>
      simp [deserAddress, deserVotePk, deserVrfPk, deserBytes32, h, Except.map]

/-- Witness for C7 at concrete 64- and 32-byte (and wrong-length) values. -/
theorem c7_byte_newtype_ser_witness :
    serSignature (Signature.mk (List.replicate 64 7))
      = .bytes (List.replicate 64 7) ∧
    (∃ bs, serAddress (Address.new (List.replicate 32 9)) = .bytes bs ∧ bs.length = 32) ∧
    deserSignature (.bytes (List.replicate 64 7))
      = .ok (Signature.mk (List.replicate 64 7)) ∧
    deserSignature (.bytes [0]) = .error "invalid byte length" ∧
    deserAddress (.bytes (List.replicate 32 9))
      = .ok (Address.new (List.replicate 32 9)) ∧
    deserAddress (.bytes [0]) = .error "invalid byte length" :=
  ⟨(c7_byte_newtype_ser.1 (Signature.mk (List.replicate 64 7)) (by decide)).1,
   c7_byte_newtype_ser.2.2.1 (Address.new (List.replicate 32 9)) (by decide),
   c7_byte_newtype_ser.2.2.2.2.2.1 (List.replicate 64 7) (by decide),
   c7_byte_newtype_ser.2.2.2.2.2.2.1 [0] (by decide),
   (c7_byte_newtype_ser.2.2.2.2.2.2.2.1 (List.replicate 32 9) (by decide)).1,
   (c7_byte_newtype_ser.2.2.2.2.2.2.2.2 [0] (by decide)).1⟩

/-- Witness for C10 at a one-address multisig. -/
theorem c10_new_preserves_witness :
    (MultisigAddress.mk 1 1 [Ed25519PublicKey.mk (List.replicate 32 0)]).version = 1 ∧
    (MultisigAddress.mk 1 1 [Ed25519PublicKey.mk (List.replicate 32 0)]).threshold = 1 ∧
    (MultisigAddress.mk 1 1 [Ed25519PublicKey.mk (List.replicate 32 0)]).public_keys.length
      = [Address.new (List.replicate 32 0)].length ∧
    (MultisigAddress.mk 1 1 [Ed25519PublicKey.mk (List.replicate 32 0)]).public_keys
      = [Address.new (List.replicate 32 0)].map (fun address => ⟨address.bytes⟩) ∧
    ∀ i : Nat,
      (MultisigAddress.mk 1 1 [Ed25519PublicKey.mk (List.replicate 32 0)]).public_keys[i]?
        = [Address.new (List.replicate 32 0)][i]?.map (fun address => ⟨address.bytes⟩) :=
  c10_new_preserves 1 1 [Address.new (List.replicate 32 0)]
    (MultisigAddress.mk 1 1 [Ed25519PublicKey.mk (List.replicate 32 0)]) (by decide)

/-! ### Claim theorems: multisig aggregation -/

theorem combineSlots_comm (x y : MultisigSubsig) (hk : x.key = y.key) :
    combineSlots x y = combineSlots y x := by
  unfold combineSlots
  cases hx : x.sig with
  | none =>
    cases hy : y.sig with
    | none => simp [hk]
    | some t => simp [hk]
  | some s =>
    cases hy : y.sig with
    | none => simp [hk]
    | some t =>
      by_cases hst : s = t
      · subst hst
        simp [hk]
      · simp only [hk]
        rw [if_neg hst, if_neg (fun hts => hst hts.symm)]

theorem mergeSubsigs_comm : ∀ xs ys : List MultisigSubsig,
    xs.map MultisigSubsig.key = ys.map MultisigSubsig.key →
    mergeSubsigs xs ys = mergeSubsigs ys xs := by
  intro xs
  induction xs with
  | nil =>
    intro ys h
    cases ys with
    | nil => rfl
    | cons y ys => simp at h
  | cons x xs ih =>
    intro ys h
    cases ys with
    | nil => simp at h
    | cons y ys =>
      simp only [List.map_cons, List.cons.injEq] at h
      simp only [mergeSubsigs]
      rw [combineSlots_comm x y h.1, ih ys h.2]

theorem combineSlots_ok (x y z : MultisigSubsig) (h : combineSlots x y = .ok z) :
    z = ⟨x.key, if x.sig.isSome then x.sig else y.sig⟩ := by
  unfold combineSlots at h
  cases hx : x.sig with
  | none =>
    cases hy : y.sig with
    | none => rw [hx, hy] at h; injection h with h; rw [← h]; simp
    | some t => rw [hx, hy] at h; injection h with h; rw [← h]; simp
  | some s =>
    cases hy : y.sig with
    | none => rw [hx, hy] at h; injection h with h; rw [← h]; simp
    | some t =>
      rw [hx, hy] at h
      by_cases hst : s = t
      · subst hst
        simp only [if_pos rfl] at h
        injection h with h
        rw [← h]
        simp
      · simp [hst] at h

theorem mergeSubsigs_ok : ∀ xs ys zs : List MultisigSubsig,
    mergeSubsigs xs ys = .ok zs →
    zs = List.zipWith
      (fun x y => ⟨x.key, if x.sig.isSome then x.sig else y.sig⟩) xs ys := by
  intro xs
  induction xs with
  | nil =>
    intro ys zs h
    cases ys with
    | nil => injection h with h; rw [← h]; rfl
    | cons y ys => exact absurd h (by simp [mergeSubsigs])
  | cons x xs ih =>
    intro ys zs h
    cases ys with
    | nil => exact absurd h (by simp [mergeSubsigs])
    | cons y ys =>
      simp only [mergeSubsigs] at h
      cases hc : combineSlots x y with
      | error e => rw [hc] at h; exact Except.noConfusion h
      | ok z =>
        rw [hc] at h
        cases hm : mergeSubsigs xs ys with
        | error e => rw [hm] at h; exact Except.noConfusion h
        | ok zs2 =>
          rw [hm] at h
          injection h with h
          rw [← h, List.zipWith_cons_cons, combineSlots_ok x y z hc, ih ys zs2 hm]

theorem zipWith_merged_count : ∀ xs ys : List MultisigSubsig,
    ((List.zipWith (fun x y => ⟨x.key, if x.sig.isSome then x.sig else y.sig⟩) xs ys :
        List MultisigSubsig).countP (fun s => s.sig.isSome))
      = (List.zipWith (fun x y => x.sig.isSome || y.sig.isSome) xs ys).countP
          (fun b => b) := by
  intro xs
  induction xs with
  | nil => intro ys; rfl
  | cons x xs ih =>
    intro ys
    cases ys with
    | nil => rfl
    | cons y ys =>
      simp only [List.zipWith_cons_cons, List.countP_cons, ih ys]
      congr 1
      cases hx : x.sig <;> cases hy : y.sig <;> simp

/-- C8: merging two partial multisig signature sets over the same identity is
commutative; merging across different identities fails with
`IdentityMismatch`; a successful merge takes, at each position, the left
signature when present and the right one otherwise, keeps threshold and
version, and its completeness is equivalent to the union count of signed
positions reaching the threshold. -/
theorem c8_merge_commutes :
    (∀ a b : MultisigSignature, merge a b = merge b a) ∧
    (∀ a b : MultisigSignature,
      a.version ≠ b.version ∨ a.threshold ≠ b.threshold ∨ a.keys ≠ b.keys →
      merge a b = .error .identityMismatch) ∧
    (∀ a b m : MultisigSignature, merge a b = .ok m →
      m.subsigs = List.zipWith
        (fun x y => ⟨x.key, if x.sig.isSome then x.sig else y.sig⟩) a.subsigs b.subsigs ∧
      m.threshold = a.threshold ∧ m.version = a.version ∧
      (m.is_complete = true ↔ a.threshold ≤ unionCount a b)) := by
  refine ⟨?_, ?_, ?_⟩
  · intro a b
    unfold merge
    by_cases h : a.version = b.version ∧ a.threshold = b.threshold ∧ a.keys = b.keys
    · rw [if_pos h, if_pos ⟨h.1.symm, h.2.1.symm, h.2.2.symm⟩]
      have hk : a.subsigs.map MultisigSubsig.key = b.subsigs.map MultisigSubsig.key := h.2.2
      rw [mergeSubsigs_comm _ _ hk, h.2.1, h.1]
    · rw [if_neg h, if_neg (fun hc => h ⟨hc.1.symm, hc.2.1.symm, hc.2.2.symm⟩)]
  · intro a b h
    unfold merge
    rw [if_neg]
    rintro ⟨h1, h2, h3⟩
    rcases h with h | h | h <;> contradiction
  · intro a b m h
    unfold merge at h
    by_cases hid : a.version = b.version ∧ a.threshold = b.threshold ∧ a.keys = b.keys
    · rw [if_pos hid] at h
      cases hms : mergeSubsigs a.subsigs b.subsigs with
      | error e => rw [hms] at h; exact absurd h (by simp [Except.map])
      | ok zs =>
        rw [hms] at h
        simp only [Except.map] at h
        injection h with h
        have hzs := mergeSubsigs_ok _ _ _ hms
        refine ⟨by rw [← h, hzs], by rw [← h], by rw [← h], ?_⟩
        rw [← h]
        unfold MultisigSignature.is_complete unionCount
        simp only [hzs, zipWith_merged_count]
        exact decide_eq_true_iff
    · rw [if_neg hid] at h
      exact absurd h (by simp)

/-- Witness for C8: a two-slot identity with complementary partial signatures
merges to the fully signed value; a version mismatch is rejected. -/
theorem c8_merge_commutes_witness :
    merge
      ⟨[⟨Ed25519PublicKey.mk (List.replicate 32 0), some (Signature.mk (List.replicate 64 1))⟩,
        ⟨Ed25519PublicKey.mk (List.replicate 32 2), none⟩], 2, 1⟩
      ⟨[⟨Ed25519PublicKey.mk (List.replicate 32 0), none⟩,
        ⟨Ed25519PublicKey.mk (List.replicate 32 2), some (Signature.mk (List.replicate 64 3))⟩], 2, 1⟩
      = merge
      ⟨[⟨Ed25519PublicKey.mk (List.replicate 32 0), none⟩,
        ⟨Ed25519PublicKey.mk (List.replicate 32 2), some (Signature.mk (List.replicate 64 3))⟩], 2, 1⟩
      ⟨[⟨Ed25519PublicKey.mk (List.replicate 32 0), some (Signature.mk (List.replicate 64 1))⟩,
        ⟨Ed25519PublicKey.mk (List.replicate 32 2), none⟩], 2, 1⟩ ∧
    merge ⟨[⟨Ed25519PublicKey.mk (List.replicate 32 0), none⟩], 1, 1⟩
        ⟨[⟨Ed25519PublicKey.mk (List.replicate 32 0), none⟩], 1, 2⟩
      = .error .identityMismatch ∧
    ((⟨[⟨Ed25519PublicKey.mk (List.replicate 32 0), some (Signature.mk (List.replicate 64 1))⟩,
        ⟨Ed25519PublicKey.mk (List.replicate 32 2), some (Signature.mk (List.replicate 64 3))⟩],
        2, 1⟩ : MultisigSignature).is_complete = true ↔
      2 ≤ unionCount
        ⟨[⟨Ed25519PublicKey.mk (List.replicate 32 0), some (Signature.mk (List.replicate 64 1))⟩,
          ⟨Ed25519PublicKey.mk (List.replicate 32 2), none⟩], 2, 1⟩
        ⟨[⟨Ed25519PublicKey.mk (List.replicate 32 0), none⟩,
          ⟨Ed25519PublicKey.mk (List.replicate 32 2), some (Signature.mk (List.replicate 64 3))⟩],
          2, 1⟩) :=
  ⟨c8_merge_commutes.1 _ _,
   c8_merge_commutes.2.1 _ _ (Or.inl (by decide)),
   (c8_merge_commutes.2.2
     ⟨[⟨Ed25519PublicKey.mk (List.replicate 32 0), some (Signature.mk (List.replicate 64 1))⟩,
       ⟨Ed25519PublicKey.mk (List.replicate 32 2), none⟩], 2, 1⟩
     ⟨[⟨Ed25519PublicKey.mk (List.replicate 32 0), none⟩,
       ⟨Ed25519PublicKey.mk (List.replicate 32 2), some (Signature.mk (List.replicate 64 3))⟩], 2, 1⟩
     ⟨[⟨Ed25519PublicKey.mk (List.replicate 32 0), some (Signature.mk (List.replicate 64 1))⟩,
       ⟨Ed25519PublicKey.mk (List.replicate 32 2), some (Signature.mk (List.replicate 64 3))⟩],
       2, 1⟩ (by decide)).2.2.2⟩

end Algonaut
